import Mathlib

/-!
Verification of the Otaku-flash pin-definition contract.

The repository ships a single header, src/pin_definitions.h, assigning
Raspberry Pi Pico GPIO line indices to the signals of an Atari 2600/7800
cartridge bus: sixteen address lines A0..A15, two control lines RW and
HALT, and eight data lines D0..D7.  The constants below transcribe that
header verbatim.  On top of them we model, following the specification,
the derived bit masks, the bulk address sampling path, the bulk data
drive path, and the validated construction of a pin map, and we prove
the structural invariants and refinement properties the specification
states about them.
-/

namespace OtakuFlash

/-- GPIO line of address bit 0 (src/pin_definitions.h line 27). -/
def A0 : Nat := 0

/-- GPIO line of address bit 1. -/
def A1 : Nat := 1

/-- GPIO line of address bit 2. -/
def A2 : Nat := 2

/-- GPIO line of address bit 3. -/
def A3 : Nat := 3

/-- GPIO line of address bit 4. -/
def A4 : Nat := 4

/-- GPIO line of address bit 5. -/
def A5 : Nat := 5

/-- GPIO line of address bit 6. -/
def A6 : Nat := 6

/-- GPIO line of address bit 7. -/
def A7 : Nat := 7

/-- GPIO line of address bit 8. -/
def A8 : Nat := 8

/-- GPIO line of address bit 9. -/
def A9 : Nat := 9

/-- GPIO line of address bit 10. -/
def A10 : Nat := 10

/-- GPIO line of address bit 11. -/
def A11 : Nat := 11

/-- GPIO line of address bit 12. -/
def A12 : Nat := 12

/-- GPIO line of address bit 13. -/
def A13 : Nat := 13

/-- GPIO line of address bit 14. -/
def A14 : Nat := 14

/-- GPIO line of address bit 15, the non-contiguous high address bit. -/
def A15 : Nat := 26

/-- GPIO line of the read/write control signal. -/
def RW : Nat := 25

/-- GPIO line of the halt control signal. -/
def HALT : Nat := 27

/-- GPIO line of data bit 0 (src/pin_definitions.h line 53). -/
def D0 : Nat := 15

/-- GPIO line of data bit 1. -/
def D1 : Nat := 16

/-- GPIO line of data bit 2. -/
def D2 : Nat := 17

/-- GPIO line of data bit 3. -/
def D3 : Nat := 18

/-- GPIO line of data bit 4. -/
def D4 : Nat := 19

/-- GPIO line of data bit 5. -/
def D5 : Nat := 20

/-- GPIO line of data bit 6. -/
def D6 : Nat := 21

/-- GPIO line of data bit 7. -/
def D7 : Nat := 22

/-- The sixteen address lines in order A0..A15. -/
def addressPins : List Nat :=
  [A0, A1, A2, A3, A4, A5, A6, A7, A8, A9, A10, A11, A12, A13, A14, A15]

/-- The two control lines. -/
def controlPins : List Nat := [RW, HALT]

/-- The eight data lines in order D0..D7. -/
def dataPins : List Nat := [D0, D1, D2, D3, D4, D5, D6, D7]

/-- All twenty-six mapped physical lines. -/
def allPins : List Nat := addressPins ++ controlPins ++ dataPins

/-- Modelled from the spec: the derived AddressMask covering the 15
contiguous address lines A0..A14 (the mask itself is not in the header;
it is determined by the pin constants as one set bit per line). -/
def addressMask : Nat :=
  (addressPins.take 15).foldl (fun m p => m ||| (1 <<< p)) 0

/-- Modelled from the spec: the derived DataMask covering the 8
contiguous data lines D0..D7. -/
def dataMask : Nat :=
  dataPins.foldl (fun m p => m ||| (1 <<< p)) 0

/-- C1: address lines A0..A14 occupy a contiguous ascending range of
physical line indices starting at 0, so one masked read of the bulk
input word recovers address bits 0 through 14. -/
theorem address_low_pins_contiguous :
    A0 = 0 ∧
      ∀ i : Fin 14, addressPins.getD (i.1 + 1) 0 = addressPins.getD i.1 0 + 1 := by
  decide

/-- C2: data lines D0..D7 occupy a contiguous ascending range of
physical line indices, so one bulk masked write places all 8 data bits
at once. -/
theorem data_pins_contiguous :
    ∀ i : Fin 7, dataPins.getD (i.1 + 1) 0 = dataPins.getD i.1 0 + 1 := by
  decide

/-- C3: no physical line index appears twice anywhere in the mapping:
the concatenation of the address, control and data groups has no
duplicate, hence the three groups are pairwise disjoint and each group
has distinct indices. -/
theorem pin_indices_injective :
    (addressPins ++ controlPins ++ dataPins).Nodup := by
  decide

/-- C8: the contract maps exactly 26 physical lines, partitioned into
three groups of fixed sizes 16 (address), 2 (control) and 8 (data);
the groups do not overlap, so the partition is genuine. -/
theorem pin_contract_shape :
    allPins.length = 26 ∧ allPins.Nodup ∧
      addressPins.length = 16 ∧ controlPins.length = 2 ∧ dataPins.length = 8 := by
  decide

/-- C9: the data group starts immediately after the contiguous address
range: D0 = A14 + 1 = 15, the low address lines and the data lines
together fill the contiguous physical span 0..22, and the shift amount
placing a data byte in the bulk word is D0 = 15. -/
theorem data_group_follows_address_group :
    D0 = A14 + 1 ∧ D0 = 15 ∧
      ∀ p : Nat, p ∈ addressPins.take 15 ++ dataPins ↔ p ≤ 22 := by
  refine ⟨by decide, by decide, ?_⟩
  intro p
  simp [addressPins, dataPins, A0, A1, A2, A3, A4, A5, A6, A7, A8, A9, A10,
    A11, A12, A13, A14, D0, D1, D2, D3, D4, D5, D6, D7]
  omega

/-- C10: every mapped line index lies within the GPIO range 0..27, and
the three lines outside the two contiguous groups form the contiguous
block 25..27 with A15 = 26 between RW = 25 and HALT = 27. -/
theorem pins_within_gpio_range :
    allPins.all (fun p => p ≤ 27) = true ∧
      RW = 25 ∧ A15 = 26 ∧ HALT = 27 ∧ A15 = RW + 1 ∧ HALT = A15 + 1 := by
  decide

/-- C6: the derived masks have exactly the bits of their groups set:
AddressMask = 0x7FFF covers exactly A0..A14, DataMask = 0x7F8000 covers
exactly D0..D7, and the masks are disjoint from each other and from the
lines A15, RW and HALT. -/
theorem derived_masks_cover_groups :
    addressMask = 0x00007FFF ∧ dataMask = 0x007F8000 ∧
      (∀ p : Nat, addressMask.testBit p = true ↔ p ∈ addressPins.take 15) ∧
      (∀ p : Nat, dataMask.testBit p = true ↔ p ∈ dataPins) ∧
      addressMask &&& dataMask = 0 ∧
      addressMask.testBit A15 = false ∧ addressMask.testBit RW = false ∧
      addressMask.testBit HALT = false ∧ dataMask.testBit A15 = false ∧
      dataMask.testBit RW = false ∧ dataMask.testBit HALT = false := by
  have hA : addressMask = 2 ^ 15 - 1 := by decide
  have hD : dataMask = (2 ^ 8 - 1) <<< 15 := by decide
  refine ⟨by decide, by decide, ?_, ?_, by decide, by decide, by decide,
    by decide, by decide, by decide, by decide⟩
  · intro p
    rw [hA, Nat.testBit_two_pow_sub_one]
    simp only [decide_eq_true_eq]
    simp [addressPins, A0, A1, A2, A3, A4, A5, A6, A7, A8, A9, A10, A11,
      A12, A13, A14]
    omega
  · intro p
    rw [hD]
    simp only [Nat.testBit_shiftLeft, Nat.testBit_two_pow_sub_one,
      Bool.and_eq_true, decide_eq_true_eq, ge_iff_le]
    simp [dataPins, D0, D1, D2, D3, D4, D5, D6, D7]
    omega

/-- Assemble a value from individually read bits: bit i of the result
is f i, for every i below the given width. -/
def assembleBits (f : Nat → Bool) : Nat → Nat
  | 0 => 0
  | n + 1 => assembleBits f n + (f n).toNat * 2 ^ n

/-- Modelled from the spec: the fast address path of sample() — one
bulk read w of the GPIO input word, one masked shift through
AddressMask, plus the individually read A15 bit placed at bit 15. -/
def sampleAddressFast (w : Nat) : Nat :=
  ((w &&& addressMask) >>> A0) ||| ((w.testBit A15).toNat <<< 15)

/-- Modelled from the spec: the reference address path — read each of
the 16 address lines individually and assemble bits 0..15. -/
def sampleAddressBitwise (w : Nat) : Nat :=
  assembleBits (fun i => w.testBit (addressPins.getD i 0)) 16

theorem assembleBits_agree {f g : Nat → Bool} :
    ∀ n, (∀ i, i < n → f i = g i) → assembleBits f n = assembleBits g n := by
  intro n
  induction n with
  | zero => intro _; rfl
  | succ n ih =>
    intro h
    have h1 : assembleBits f n = assembleBits g n :=
      ih fun i hi => h i (Nat.lt_succ_of_lt hi)
    simp [assembleBits, h1, h n (Nat.lt_succ_self n)]

theorem assembleBits_eq_mod (w : Nat) :
    ∀ n, assembleBits (fun i => w.testBit i) n = w % 2 ^ n := by
  intro n
  induction n with
  | zero => simp [assembleBits, Nat.mod_one]
  | succ n ih =>
    have hsplit : w % 2 ^ (n + 1) = w % 2 ^ n + 2 ^ n * (w / 2 ^ n % 2) := by
      rw [pow_succ, Nat.mod_mul]
    rcases Nat.mod_two_eq_zero_or_one (w / 2 ^ n) with h | h
    · have hb : w.testBit n = false := by simp [Nat.testBit_to_div_mod, h]
      simp [assembleBits, ih, hb, hsplit, h]
    · have hb : w.testBit n = true := by simp [Nat.testBit_to_div_mod, h]
      simp [assembleBits, ih, hb, hsplit, h]
      try ring

theorem or_two_pow_eq_add {x n : Nat} (hx : x < 2 ^ n) :
    x ||| 2 ^ n = x + 2 ^ n := by
  apply Nat.eq_of_testBit_eq
  intro j
  rcases lt_trichotomy j n with hj | hj | hj
  · rw [Nat.add_comm, Nat.testBit_two_pow_add_gt hj]
    simp [Nat.testBit_two_pow_of_ne (Nat.ne_of_gt hj)]
  · subst hj
    rw [Nat.add_comm, Nat.testBit_two_pow_add_eq]
    simp [Nat.testBit_lt_two_pow hx]
  · have h1 : x.testBit j = false :=
      Nat.testBit_lt_two_pow (lt_trans hx (Nat.pow_lt_pow_right (by omega) hj))
    have h2 : (2 ^ n).testBit j = false :=
      Nat.testBit_two_pow_of_ne (Nat.ne_of_lt hj)
    have h3 : (x + 2 ^ n).testBit j = false := by
      apply Nat.testBit_lt_two_pow
      have hnj : 2 ^ (n + 1) ≤ 2 ^ j := Nat.pow_le_pow_right (by omega) hj
      calc x + 2 ^ n < 2 ^ n + 2 ^ n := by omega
        _ = 2 ^ (n + 1) := by ring
        _ ≤ 2 ^ j := hnj
    simp [h1, h2, h3]

/-- C4: for every bulk GPIO snapshot word, the fast masked-shift
sampling path combined with the individually read A15 bit as bit 15
yields the same 16-bit address as reading all 16 address lines
individually; and the high address line is not contiguous with the
A0..A14 range. -/
theorem sampling_paths_agree :
    (∀ w : Nat, sampleAddressFast w = sampleAddressBitwise w) ∧ A15 ≠ A14 + 1 := by
  refine ⟨?_, by decide⟩
  intro w
  have hget : ∀ i, i < 15 → addressPins.getD i 0 = i := by decide
  have hlow : assembleBits (fun i => w.testBit (addressPins.getD i 0)) 15
      = w % 2 ^ 15 := by
    rw [assembleBits_agree 15 (fun i hi => by rw [hget i hi]),
      assembleBits_eq_mod]
  have hstep : assembleBits (fun i => w.testBit (addressPins.getD i 0)) 16
      = assembleBits (fun i => w.testBit (addressPins.getD i 0)) 15
        + (w.testBit (addressPins.getD 15 0)).toNat * 2 ^ 15 := rfl
  have hhigh : addressPins.getD 15 0 = A15 := by decide
  have hslow : sampleAddressBitwise w
      = w % 2 ^ 15 + (w.testBit A15).toNat * 2 ^ 15 := by
    rw [sampleAddressBitwise, hstep, hlow, hhigh]
  have hand : w &&& addressMask = w % 2 ^ 15 := by
    rw [show addressMask = 2 ^ 15 - 1 from by decide]
    exact Nat.and_pow_two_sub_one_eq_mod w 15
  rw [hslow, sampleAddressFast, hand]
  cases hbit : w.testBit A15 with
  | false => simp [A0]
  | true =>
    have hlt : w % 2 ^ 15 < 2 ^ 15 := Nat.mod_lt w (by norm_num)
    rw [A0, Nat.shiftRight_zero]
    simp only [Bool.toNat_true, one_mul]
    rw [show (1 : Nat) <<< 15 = 2 ^ 15 from by decide, or_two_pow_eq_add hlt]

/-- Modelled from the spec: drive(byte) — one bulk masked write through
DataMask placing the byte at the data line positions of the 32-bit GPIO
word and leaving every other line unchanged. -/
def driveWord (w b : Nat) : Nat :=
  (w &&& (0xFFFFFFFF ^^^ dataMask)) ||| ((b <<< D0) &&& dataMask)

/-- Modelled from the spec: a simulated bulk read of the data lines —
mask the GPIO word to the data line positions and shift down to a byte. -/
def readDataLines (u : Nat) : Nat :=
  (u &&& dataMask) >>> D0

/-- C5: driving a byte and then reading the data lines back returns
exactly that byte, and no line outside the data group changes. -/
theorem drive_round_trip (w b p : Nat) (hb : b < 256) (hw : w < 2 ^ 32)
    (hp : p ∉ dataPins) :
    readDataLines (driveWord w b) = b ∧
      (driveWord w b).testBit p = w.testBit p := by
  have hdm : dataMask = (2 ^ 8 - 1) <<< 15 := by decide
  constructor
  · have hkill : (0xFFFFFFFF ^^^ dataMask) &&& dataMask = 0 := by decide
    have hstep : driveWord w b &&& dataMask = (b <<< D0) &&& dataMask := by
      rw [driveWord, Nat.and_distrib_right, Nat.and_assoc, hkill,
        Nat.and_assoc, Nat.and_self, Nat.and_zero, Nat.zero_or]
    have hin : (b <<< D0) &&& dataMask = b <<< D0 := by
      apply Nat.eq_of_testBit_eq
      intro j
      simp only [Nat.testBit_and, hdm, Nat.testBit_shiftLeft,
        Nat.testBit_two_pow_sub_one, D0]
      by_cases h15 : 15 ≤ j
      · by_cases h8 : j - 15 < 8
        · simp [h15, h8]
        · have h256 : (256 : Nat) ≤ 2 ^ (j - 15) := by
            calc (256 : Nat) = 2 ^ 8 := by norm_num
              _ ≤ 2 ^ (j - 15) := Nat.pow_le_pow_right (by omega) (by omega)
          have hbf : b.testBit (j - 15) = false :=
            Nat.testBit_lt_two_pow (lt_of_lt_of_le hb h256)
          simp [h15, h8, hbf]
      · simp [h15]
    rw [readDataLines, hstep, hin, D0, Nat.shiftLeft_eq,
      Nat.shiftRight_eq_div_pow, Nat.mul_div_cancel _ (by positivity)]
  · have hp2 : p < 15 ∨ 23 ≤ p := by
      simp [dataPins, D0, D1, D2, D3, D4, D5, D6, D7] at hp
      omega
    have hnm : (0xFFFFFFFF : Nat) = 2 ^ 32 - 1 := by decide
    simp only [driveWord, Nat.testBit_or, Nat.testBit_and, Nat.testBit_xor,
      hnm, hdm, Nat.testBit_shiftLeft, Nat.testBit_two_pow_sub_one, D0]
    have hdmf : (decide (p ≥ 15) && decide (p - 15 < 8)) = false := by
      rcases hp2 with h | h
      · have hge : ¬ p ≥ 15 := by omega
        simp [hge]
      · have hlt8 : ¬ p - 15 < 8 := by omega
        simp [hlt8]
    rw [hdmf]
    by_cases h32 : p < 32
    · simp [h32]
    · have hwf : w.testBit p = false :=
        Nat.testBit_lt_two_pow
          (lt_of_lt_of_le hw (Nat.pow_le_pow_right (by omega) (by omega)))
      simp [h32, hwf]

/-- C5 witness: a concrete drive of byte 0xAB over word 0x12345678,
checked at the non-data line 5. -/
theorem drive_round_trip_witness :
    (0xAB : Nat) < 256 ∧ (0x12345678 : Nat) < 2 ^ 32 ∧ (5 : Nat) ∉ dataPins ∧
      (readDataLines (driveWord 0x12345678 0xAB) = 0xAB ∧
        (driveWord 0x12345678 0xAB).testBit 5 = (0x12345678 : Nat).testBit 5) :=
  ⟨by decide, by decide, by decide,
    drive_round_trip 0x12345678 0xAB 5 (by decide) (by decide) (by decide)⟩

/-- Modelled from the spec: a candidate pin assignment, the input of
PinMap construction — 16 address lines, the RW and HALT lines, 8 data
lines. -/
structure PinAssignment where
  addr : Fin 16 → Nat
  readWriteLine : Nat
  haltLine : Nat
  data : Fin 8 → Nat

/-- A list is a contiguous ascending run when each entry is its
predecessor plus one. -/
def contiguousAsc : List Nat → Bool
  | [] => true
  | [_] => true
  | x :: y :: t => (y == x + 1) && contiguousAsc (y :: t)

/-- All 26 line indices of a candidate assignment. -/
def PinAssignment.lines (c : PinAssignment) : List Nat :=
  List.ofFn c.addr ++ [c.readWriteLine, c.haltLine] ++ List.ofFn c.data

/-- Modelled from the spec: the structural invariants PinMap
construction asserts — address lines 0..14 contiguous ascending, data
lines contiguous ascending, no line index used twice. -/
def PinAssignment.ok (c : PinAssignment) : Bool :=
  contiguousAsc ((List.ofFn c.addr).take 15) &&
    contiguousAsc (List.ofFn c.data) && decide c.lines.Nodup

/-- Modelled from the spec: PinMap construction — the assignment is
produced only when the structural invariants hold. -/
def mkPinMap (c : PinAssignment) : Option PinAssignment :=
  if c.ok then some c else none

/-- The pin assignment of src/pin_definitions.h. -/
def atariAssignment : PinAssignment where
  addr := fun i => addressPins.getD i.1 0
  readWriteLine := RW
  haltLine := HALT
  data := fun i => dataPins.getD i.1 0

/-- A deliberately broken assignment mapping every address line to 0. -/
def collidingAssignment : PinAssignment where
  addr := fun _ => 0
  readWriteLine := 25
  haltLine := 27
  data := fun i => 15 + i.1

/-- C7: construction rejects every assignment whose low address lines
are non-contiguous or whose line indices collide, producing no PinMap,
while the assignment of the header itself is accepted. -/
theorem construction_rejects_invalid (c : PinAssignment)
    (h : contiguousAsc ((List.ofFn c.addr).take 15) = false ∨ ¬ c.lines.Nodup) :
    mkPinMap c = none ∧ mkPinMap atariAssignment = some atariAssignment := by
  constructor
  · have hok : c.ok = false := by
      rcases h with h | h
      · simp only [PinAssignment.ok, h, Bool.false_and, Bool.and_false]
      · simp only [PinAssignment.ok, decide_eq_false h, Bool.and_false]
    simp [mkPinMap, hok]
  · have hok : atariAssignment.ok = true := by decide
    simp [mkPinMap, hok]

/-- C7 witness: the colliding assignment is rejected. -/
theorem construction_rejects_invalid_witness :
    (contiguousAsc ((List.ofFn collidingAssignment.addr).take 15) = false ∨
        ¬ collidingAssignment.lines.Nodup) ∧
      (mkPinMap collidingAssignment = none ∧
        mkPinMap atariAssignment = some atariAssignment) :=
  ⟨Or.inl (by decide),
    construction_rejects_invalid collidingAssignment (Or.inl (by decide))⟩

end OtakuFlash
